import Mathlib

/-!
Shallow embedding of the client-side traffic-resilience subsystem of
dormoron/phantasm: the middleware chain primitive, the retry middleware's
default predicate and loop, the circuit breaker state machine, the selector
with its balancers, and the three rate-limiter algorithms.  Go machine
integers are modelled as Int (no claim exercises overflow), Go time.Time /
time.Duration as nanosecond counts in Int, and Go float64 arithmetic as
exact rational arithmetic in ℚ (the float values reached by the claims are
small and exact).  Fallible operations return Except, and a Go runtime
panic (out-of-range slice indexing) is modelled as a distinguished error
value so that panic freedom is provable.
-/

namespace Phantasm

/-! ## Errors (package errors, src/unnamed/part_013) -/

/-- Model of a Go error value in this subsystem: either a framework
`*errors.Error` (with HTTP-style code, reason and message), some other
plain Go error, or a marker for a runtime panic (used to model
out-of-range indexing faithfully in total functions). -/
inductive Err
  | framework (code : Int) (reason : String) (message : String)
  | goError (msg : String)
  | panicked (what : String)
  deriving DecidableEq, Repr

/-- errors.ServiceUnavailable("CIRCUIT_OPEN", ...) as returned by
Breaker.Execute when the breaker denies a request (HTTP 503). -/
def circuitOpenErr : Err :=
  .framework 503 "CIRCUIT_OPEN" "service unavailable due to circuit breaker"

/-- errors.TooManyRequests("RATE_LIMITED", ...) as returned by the limiter
package's defaultFailureHandler when a request is rate limited (HTTP 429). -/
def rateLimitedErr : Err :=
  .framework 429 "RATE_LIMITED" "too many requests"

/-- errors.TooManyRequests("RATELIMIT", ...) as returned by the ratelimit
middleware when its limiter denies a request (HTTP 429). -/
def rateLimitMiddlewareErr : Err :=
  .framework 429 "RATELIMIT" "too many requests"

/-- selector's ErrNoAvailable = errors.New("no available node"). -/
def errNoAvailable : Err := .goError "no available node"

/-- context.Canceled / ctx.Err() as returned when a retry wait is
interrupted by cancellation. -/
def ctxCanceledErr : Err := .goError "context canceled"

/-! ## Middleware chain (src/middleware/middleware.go) -/

/-- Middleware wraps a handler with another handler.  The chain primitive
never inspects handlers, so the handler type is abstract here. -/
def Middleware (H : Type) := H → H

/-- middleware.Chain: next := the wrapped handler; for i from len(m)-1
down to 0, next = m[i](next); return next.  The downward Go loop is the
left fold over the reversed middleware list. -/
def Chain {H : Type} (m : List (Middleware H)) : Middleware H :=
  fun next => m.reverse.foldl (fun acc mw => mw acc) next

/-! ## Default retry predicate (src/middleware/retry/retry.go, defaultRetryIf) -/

/-- defaultRetryIf: nil errors are not retried; a framework error with a
4xx code (client error) is not retried; every other error is retried.
The context, request and response parameters are accepted and ignored,
exactly as in the source. -/
def defaultRetryIf {Ctx Val : Type} (_ctx : Ctx) (_req : Val)
    (_resp : Option Val) (err : Option Err) : Bool :=
  match err with
  | none => false
  | some e =>
    match e with
    | .framework code _ _ => if 400 ≤ code ∧ code < 500 then false else true
    | _ => true

/-- C1 counterexample input: the breaker's circuit-open error has HTTP
code 503, which is not in [400, 500), so the default predicate retries it. -/
theorem defaultRetryIf_retries_circuitOpen :
    @defaultRetryIf Unit Unit () () none (some circuitOpenErr) = true := by
  decide

/-- C1 (amended): the default retry predicate treats both RateLimited
errors (HTTP 429, a client error) as non-retryable and nil errors as
non-retryable, and more generally refuses to retry any framework error
with code in [400, 500); but the breaker's CircuitOpen error (HTTP 503)
IS retryable under the default predicate. -/
theorem defaultRetryIf_spec {Ctx Val : Type} (ctx : Ctx) (req : Val)
    (resp : Option Val) :
    defaultRetryIf ctx req resp (some rateLimitedErr) = false ∧
    defaultRetryIf ctx req resp (some rateLimitMiddlewareErr) = false ∧
    defaultRetryIf ctx req resp none = false ∧
    defaultRetryIf ctx req resp (some circuitOpenErr) = true ∧
    (∀ (code : Int) (reason message : String), 400 ≤ code → code < 500 →
      defaultRetryIf ctx req resp (some (.framework code reason message)) = false) := by
  refine ⟨rfl, rfl, rfl, rfl, ?_⟩
  intro code reason message h1 h2
  simp [defaultRetryIf, h1, h2]

/-- Witness for defaultRetryIf_spec at concrete inputs. -/
theorem defaultRetryIf_spec_witness :
    @defaultRetryIf Unit Unit () () none (some rateLimitedErr) = false ∧
    @defaultRetryIf Unit Unit () () none (some (.framework 404 "NOT_FOUND" "x")) = false := by
  refine ⟨(defaultRetryIf_spec () () none).1, ?_⟩
  exact (defaultRetryIf_spec () () none).2.2.2.2 404 "NOT_FOUND" "x" (by decide) (by decide)

/-- C8: Chain(m1, ..., mN)(h) = m1(m2(...mN(h)...)): the empty chain is
the identity, Chain (m :: ms) h = m (Chain ms h) so that the first
middleware is outermost, and in closed form the chain is the right fold
of application over the middleware list. -/
theorem Chain_spec {H : Type} (mw : Middleware H) (ms : List (Middleware H)) (h : H) :
    Chain ([] : List (Middleware H)) h = h ∧
    Chain (mw :: ms) h = mw (Chain ms h) ∧
    Chain ms h = ms.foldr (fun m acc => m acc) h := by
  have key : ∀ (l : List (Middleware H)) (x : H),
      Chain l x = l.foldr (fun m acc => m acc) x := by
    intro l x
    induction l with
    | nil => rfl
    | cons m rest ih =>
      show (m :: rest).reverse.foldl (fun acc mw => mw acc) x = _
      rw [List.reverse_cons, List.foldl_append, List.foldr_cons]
      exact congrArg m ih
  exact ⟨rfl, by rw [key, key, List.foldr_cons], key ms h⟩

/-! ## Selector (src/selector/selector.go, src/unnamed/part_023) -/

/-- Node: an addressable service instance (ID, Address, Metadata, Weight).
The Go map for metadata is modelled as an association list. -/
structure Node where
  id : String
  address : String
  metadata : List (String × String)
  weight : Int
  deriving DecidableEq, Repr

/-- Model of the Go slice indexing nodes[i]: an in-range index yields the
element, an out-of-range index is a runtime panic. -/
def goIndex (ns : List Node) (i : Int) : Except Err Node :=
  if h : 0 ≤ i ∧ i.toNat < ns.length then .ok (ns.get ⟨i.toNat, h.2⟩)
  else .error (.panicked "index out of range")

/-- Model of the Go standard library rand.Int63n, which for positive n
returns a uniformly distributed value in [0, n).  The generator state is
abstracted as a seed; the seed taken modulo n ranges over exactly [0, n). -/
def randInt63n (seed : Nat) (n : Int) : Int := (seed : Int) % n

/-- nextRandom (src/unnamed/part_023): 0 when n ≤ 0, otherwise the
generator's Int63n draw in [0, n). -/
def nextRandom (seed : Nat) (n : Int) : Int :=
  if n ≤ 0 then 0 else randInt63n seed n

/-- Random.Pick: error on an empty list, otherwise
nodes[nextRandom(int64(len(nodes)))]. -/
def randomPick (seed : Nat) (nodes : List Node) : Except Err Node :=
  match nodes with
  | [] => .error errNoAvailable
  | n0 :: rest => goIndex (n0 :: rest) (nextRandom seed ((n0 :: rest).length : Int))

/-- The totalWeight loop of WeightedRandom.Pick: sum of the weights of
the nodes whose weight is positive. -/
def totalPosWeight : List Node → Int
  | [] => 0
  | nd :: rest => (if 0 < nd.weight then nd.weight else 0) + totalPosWeight rest

/-- The selection walk of WeightedRandom.Pick: subtract each positive
weight from the offset and return the first node at which the running
value goes negative; none when the loop falls through. -/
def wrWalk (offset : Int) : List Node → Option Node
  | [] => none
  | nd :: rest =>
    if 0 < nd.weight then
      if offset - nd.weight < 0 then some nd
      else wrWalk (offset - nd.weight) rest
    else wrWalk offset rest

/-- WeightedRandom.Pick: error on an empty list; uniform fallback via
nodes[nextRandom(len)] when totalWeight ≤ 0; otherwise the weighted walk
from a uniform offset in [0, totalWeight), with nodes[0] as the
unreachable fall-through result. -/
def weightedRandomPick (seed : Nat) (nodes : List Node) : Except Err Node :=
  match nodes with
  | [] => .error errNoAvailable
  | n0 :: rest =>
    let ns := n0 :: rest
    let totalWeight := totalPosWeight ns
    if totalWeight ≤ 0 then goIndex ns (nextRandom seed ((ns.length : Nat) : Int))
    else
      match wrWalk (nextRandom seed totalWeight) ns with
      | some nd => .ok nd
      | none => .ok n0

/-- defaultSelector: the applied filters and the current candidate list. -/
structure DefaultSelector where
  filters : List (List Node → List Node)
  nodes : List Node

/-- The filter loop of defaultSelector.Select: apply each filter in turn,
failing fast with ErrNoAvailable when a stage yields an empty list. -/
def selectFilters (nodes : List Node) : List (List Node → List Node) → Except Err (List Node)
  | [] => .ok nodes
  | f :: rest =>
    let nodes' := f nodes
    if nodes'.length = 0 then .error errNoAvailable
    else selectFilters nodes' rest

/-- defaultSelector.Select: ErrNoAvailable on an empty candidate list,
then the filter loop, then the balancer's Pick on the surviving list.
The balancer is passed as the pick function. -/
def select (s : DefaultSelector) (pick : List Node → Except Err Node) : Except Err Node :=
  if s.nodes.length = 0 then .error errNoAvailable
  else
    match selectFilters s.nodes s.filters with
    | .error e => .error e
    | .ok ns => pick ns

/-- Observation predicate for C7: some filter stage, applied in sequence,
yields an empty list. -/
def someStageEmpty (nodes : List Node) : List (List Node → List Node) → Bool
  | [] => false
  | f :: rest => if (f nodes).length = 0 then true else someStageEmpty (f nodes) rest

theorem selectFilters_of_someStageEmpty (fs : List (List Node → List Node)) :
    ∀ nodes, someStageEmpty nodes fs = true →
    selectFilters nodes fs = .error errNoAvailable := by
  induction fs with
  | nil => intro nodes h; simp [someStageEmpty] at h
  | cons f rest ih =>
    intro nodes h
    by_cases hf : (f nodes).length = 0
    · simp [selectFilters, hf]
    · simp only [someStageEmpty, if_neg hf] at h
      simp only [selectFilters, if_neg hf]
      exact ih (f nodes) h

/-- C7: when the candidate list is empty or some filter stage yields an
empty list, Select returns ErrNoAvailable, and its result does not depend
on the balancer's Pick (the balancer is never invoked); as a total
function of the embedding it never panics. -/
theorem select_empty_spec (s : DefaultSelector)
    (pick pick' : List Node → Except Err Node)
    (h : s.nodes.length = 0 ∨ someStageEmpty s.nodes s.filters = true) :
    select s pick = .error errNoAvailable ∧ select s pick = select s pick' := by
  rcases h with h0 | hs
  · constructor <;> simp [select, h0]
  · by_cases h0 : s.nodes.length = 0
    · constructor <;> simp [select, h0]
    · have hkey := selectFilters_of_someStageEmpty s.filters s.nodes hs
      constructor <;> simp [select, h0, hkey]

/-- Witness for select_empty_spec: a one-node selector whose single
filter removes every node. -/
theorem select_empty_spec_witness :
    select ⟨[fun _ => []], [⟨"a", "addr", [], 1⟩]⟩ (fun _ => .ok ⟨"a", "addr", [], 1⟩) =
      .error errNoAvailable := by
  exact (select_empty_spec ⟨[fun _ => []], [⟨"a", "addr", [], 1⟩]⟩
    (fun _ => .ok ⟨"a", "addr", [], 1⟩) (fun _ => .error errNoAvailable)
    (Or.inr rfl)).1

theorem totalPosWeight_nonneg (nodes : List Node) : 0 ≤ totalPosWeight nodes := by
  induction nodes with
  | nil => simp [totalPosWeight]
  | cons nd rest ih =>
    simp only [totalPosWeight]
    by_cases h : 0 < nd.weight
    · rw [if_pos h]; omega
    · rw [if_neg h]; omega

theorem totalPosWeight_pos {nodes : List Node} {nd : Node}
    (hmem : nd ∈ nodes) (hw : 0 < nd.weight) : 0 < totalPosWeight nodes := by
  induction nodes with
  | nil => cases hmem
  | cons hd rest ih =>
    rcases List.mem_cons.mp hmem with heq | htl
    · subst heq
      have := totalPosWeight_nonneg rest
      simp only [totalPosWeight, if_pos hw]
      omega
    · have := ih htl
      simp only [totalPosWeight]
      by_cases h : 0 < hd.weight
      · rw [if_pos h]; omega
      · rw [if_neg h]; omega

theorem wrWalk_pos :
    ∀ (nodes : List Node) (offset : Int), 0 ≤ offset →
    offset < totalPosWeight nodes →
    ∃ nd, wrWalk offset nodes = some nd ∧ nd ∈ nodes ∧ 0 < nd.weight := by
  intro nodes
  induction nodes with
  | nil => intro offset h0 h1; simp [totalPosWeight] at h1; omega
  | cons hd rest ih =>
    intro offset h0 h1
    by_cases hw : 0 < hd.weight
    · by_cases hoff : offset - hd.weight < 0
      · exact ⟨hd, by simp [wrWalk, hw, hoff], List.mem_cons_self hd rest, hw⟩
      · simp only [totalPosWeight, if_pos hw] at h1
        obtain ⟨nd, hwalk, hmem, hpos⟩ := ih (offset - hd.weight) (by omega) (by omega)
        exact ⟨nd, by simp [wrWalk, hw, hoff, hwalk], List.mem_cons_of_mem hd hmem, hpos⟩
    · simp only [totalPosWeight, if_neg hw] at h1
      obtain ⟨nd, hwalk, hmem, hpos⟩ := ih offset h0 (by omega)
      exact ⟨nd, by simp [wrWalk, hw, hwalk], List.mem_cons_of_mem hd hmem, hpos⟩

theorem nextRandom_range (seed : Nat) (n : Int) (h : 0 < n) :
    0 ≤ nextRandom seed n ∧ nextRandom seed n < n := by
  unfold nextRandom randInt63n
  rw [if_neg (by omega)]
  exact ⟨Int.emod_nonneg _ (by omega), Int.emod_lt_of_pos _ h⟩

/-- C5: for every node list containing a node with positive weight (so in
particular a non-empty list), WeightedRandom.Pick succeeds and returns a
node of the list whose weight is positive — never a node with weight ≤ 0. -/
theorem weightedRandomPick_positive_weight (seed : Nat) (nodes : List Node)
    (h : ∃ nd ∈ nodes, 0 < nd.weight) :
    ∃ nd, weightedRandomPick seed nodes = .ok nd ∧ nd ∈ nodes ∧ 0 < nd.weight := by
  obtain ⟨w, hwmem, hwpos⟩ := h
  match nodes, hwmem with
  | n0 :: rest, hwmem =>
    have htot : 0 < totalPosWeight (n0 :: rest) := totalPosWeight_pos hwmem hwpos
    obtain ⟨hr0, hr1⟩ := nextRandom_range seed _ htot
    obtain ⟨nd, hwalk, hmem, hpos⟩ := wrWalk_pos (n0 :: rest) _ hr0 hr1
    refine ⟨nd, ?_, hmem, hpos⟩
    simp only [weightedRandomPick]
    rw [if_neg (by omega)]
    simp [hwalk]

/-- Witness for weightedRandomPick_positive_weight: a two-node list in
which only the second node has positive weight. -/
theorem weightedRandomPick_positive_weight_witness :
    ∃ nd, weightedRandomPick 5 [⟨"a", "x", [], 0⟩, ⟨"b", "y", [], 7⟩] = .ok nd ∧
      nd ∈ [⟨"a", "x", [], 0⟩, ⟨"b", "y", [], 7⟩] ∧ 0 < nd.weight := by
  exact weightedRandomPick_positive_weight 5 _ (by decide)

theorem goIndex_ok (ns : List Node) (i : Int) (h0 : 0 ≤ i)
    (h1 : i < (ns.length : Int)) : ∃ nd, goIndex ns i = .ok nd ∧ nd ∈ ns := by
  have hlt : i.toNat < ns.length := by omega
  refine ⟨ns.get ⟨i.toNat, hlt⟩, ?_, List.get_mem ns i.toNat hlt⟩
  rw [goIndex, dif_pos ⟨h0, hlt⟩]

/-- C10: nextRandom stays in [0, n) for n > 0 and is 0 for n ≤ 0; hence
Random.Pick on a non-empty list, and the uniform fallback of
WeightedRandom.Pick when the total positive weight is ≤ 0, always index
within bounds and return a node of the list with a nil error — the panic
branch of the index model is never taken. -/
theorem nextRandom_pick_safe :
    (∀ (seed : Nat) (n : Int), 0 < n → 0 ≤ nextRandom seed n ∧ nextRandom seed n < n) ∧
    (∀ (seed : Nat) (n : Int), n ≤ 0 → nextRandom seed n = 0) ∧
    (∀ (seed : Nat) (nodes : List Node), nodes ≠ [] →
      ∃ nd, randomPick seed nodes = .ok nd ∧ nd ∈ nodes) ∧
    (∀ (seed : Nat) (nodes : List Node), nodes ≠ [] → totalPosWeight nodes ≤ 0 →
      ∃ nd, weightedRandomPick seed nodes = .ok nd ∧ nd ∈ nodes) := by
  refine ⟨nextRandom_range, ?_, ?_, ?_⟩
  · intro seed n h; simp [nextRandom, h]
  · intro seed nodes hne
    match nodes with
    | n0 :: rest =>
      have hlen : (0 : Int) < ((n0 :: rest).length : Int) := by
        simp
      obtain ⟨hr0, hr1⟩ := nextRandom_range seed _ hlen
      exact goIndex_ok _ _ hr0 hr1
  · intro seed nodes hne htot
    match nodes with
    | n0 :: rest =>
      have hlen : (0 : Int) < ((n0 :: rest).length : Int) := by
        simp
      obtain ⟨hr0, hr1⟩ := nextRandom_range seed _ hlen
      obtain ⟨nd, hok, hmem⟩ := goIndex_ok (n0 :: rest) _ hr0 hr1
      refine ⟨nd, ?_, hmem⟩
      simp only [weightedRandomPick]
      rw [if_pos htot]
      exact hok

/-- Witness for nextRandom_pick_safe at concrete inputs. -/
theorem nextRandom_pick_safe_witness :
    (0 ≤ nextRandom 7 3 ∧ nextRandom 7 3 < 3) ∧
    nextRandom 7 (-1) = 0 ∧
    (∃ nd, randomPick 7 [⟨"a", "x", [], 0⟩] = .ok nd ∧ nd ∈ [⟨"a", "x", [], 0⟩]) ∧
    (∃ nd, weightedRandomPick 7 [⟨"a", "x", [], 0⟩] = .ok nd ∧
      nd ∈ [⟨"a", "x", [], 0⟩]) := by
  refine ⟨nextRandom_pick_safe.1 7 3 (by decide),
          nextRandom_pick_safe.2.1 7 (-1) (by decide),
          nextRandom_pick_safe.2.2.1 7 _ (by simp),
          nextRandom_pick_safe.2.2.2 7 _ (by simp) (by decide)⟩

/-! ## Circuit breaker (src/middleware/circuitbreaker/circuitbreaker.go) -/

/-- Breaker states: Closed, Open, HalfOpen. -/
inductive BreakerState
  | closed
  | opened
  | halfOpen
  deriving DecidableEq, Repr

/-- Breaker: configuration (threshold, timeout in nanoseconds,
maxRequests) plus the lock-guarded mutable record (state, failures,
lastFailure time in nanoseconds, successes).  The Go zero time of a fresh
breaker is modelled as instant 0. -/
structure Breaker where
  threshold : Int
  timeout : Int
  maxRequests : Int
  state : BreakerState
  failures : Int
  lastFailure : Int
  successes : Int
  deriving DecidableEq, Repr

/-- NewBreaker with explicit configuration: initial state Closed, zero
counters, zero lastFailure. -/
def newBreaker (threshold timeout maxRequests : Int) : Breaker :=
  { threshold := threshold, timeout := timeout, maxRequests := maxRequests,
    state := .closed, failures := 0, lastFailure := 0, successes := 0 }

/-- Breaker.AllowRequest at time `now`: Closed allows; Open allows and
moves to HalfOpen (resetting successes) once now - lastFailure ≥ timeout,
else denies; HalfOpen allows while successes < maxRequests.  The lock and
the double-check of the Open state are serialization devices with no
sequential content. -/
def allowRequest (cb : Breaker) (now : Int) : Bool × Breaker :=
  match cb.state with
  | .closed => (true, cb)
  | .opened =>
    if cb.timeout ≤ now - cb.lastFailure then
      (true, { cb with state := .halfOpen, successes := 0 })
    else (false, cb)
  | .halfOpen => (decide (cb.successes < cb.maxRequests), cb)

/-- Breaker.RegisterSuccess: only in HalfOpen is the success counted;
reaching maxRequests closes the breaker and resets both counters. -/
def registerSuccess (cb : Breaker) : Breaker :=
  if cb.state = .halfOpen then
    let s := cb.successes + 1
    if cb.maxRequests ≤ s then
      { cb with state := .closed, failures := 0, successes := 0 }
    else { cb with successes := s }
  else cb

/-- Breaker.RegisterFailure at time `now`: increment failures and stamp
lastFailure; then (sequentially, as in the source) open the breaker when
Closed with failures ≥ threshold, and open it on any failure while
HalfOpen (resetting successes). -/
def registerFailure (cb : Breaker) (now : Int) : Breaker :=
  let cb1 := { cb with failures := cb.failures + 1, lastFailure := now }
  let cb2 :=
    if cb1.state = .closed ∧ cb1.threshold ≤ cb1.failures then
      { cb1 with state := .opened }
    else cb1
  if cb2.state = .halfOpen then { cb2 with state := .opened, successes := 0 }
  else cb2

/-- Breaker.Execute at time `now`: a denied AllowRequest returns the
CircuitOpen error without running the handler; otherwise the handler's
outcome is registered as success (nil error) or failure. -/
def execute {Val : Type} (cb : Breaker) (now : Int)
    (handler : Option Val × Option Err) : (Option Val × Option Err) × Breaker :=
  match allowRequest cb now with
  | (false, cb1) => ((none, some circuitOpenErr), cb1)
  | (true, cb1) =>
    match handler with
    | (resp, some e) => ((resp, some e), registerFailure cb1 now)
    | (resp, none) => ((resp, none), registerSuccess cb1)

/-- A trace event for the outcome-registration API of the breaker:
RegisterSuccess, or RegisterFailure at a given time. -/
inductive BreakerEvent
  | success
  | failure (now : Int)
  deriving DecidableEq, Repr

/-- Step a breaker by one registration event. -/
def breakerStep (cb : Breaker) : BreakerEvent → Breaker
  | .success => registerSuccess cb
  | .failure now => registerFailure cb now

/-- Run a breaker through a list of registration events. -/
def breakerRun (cb : Breaker) : List BreakerEvent → Breaker
  | [] => cb
  | e :: rest => breakerRun (breakerStep cb e) rest

/-- Number of failure events in a trace. -/
def countFailures : List BreakerEvent → Int
  | [] => 0
  | .failure _ :: rest => 1 + countFailures rest
  | .success :: rest => countFailures rest

/-- Length of the longest run of consecutive failure events in a trace
(used to exhibit that the code does not require consecutive failures). -/
def maxConsecFailures (es : List BreakerEvent) : Int :=
  (es.foldl (fun acc e =>
    match e with
    | .failure _ => (acc.1 + 1, max acc.2 (acc.1 + 1))
    | .success => (0, acc.2)) ((0 : Int), (0 : Int))).2

theorem breakerRun_opened_absorbing :
    ∀ (es : List BreakerEvent) (cb : Breaker), cb.state = .opened →
    (breakerRun cb es).state = .opened := by
  intro es
  induction es with
  | nil => intro cb h; exact h
  | cons e rest ih =>
    intro cb h
    cases e with
    | success =>
      have hstep : breakerStep cb .success = cb := by
        simp [breakerStep, registerSuccess, h]
      rw [breakerRun, hstep]
      exact ih cb h
    | failure t =>
      apply ih
      simp [breakerStep, registerFailure, h]

/-- C2 counterexample: with threshold = 2, the trace
failure, success, failure — whose longest run of consecutive failures is
1 < 2 — nevertheless opens the breaker: a registered success while Closed
does not interrupt the failure count. -/
theorem breaker_opens_without_consecutive_failures :
    (breakerRun (newBreaker 2 1000 1) [.failure 10, .success, .failure 20]).state
      = .opened ∧
    maxConsecFailures [.failure 10, .success, .failure 20] = 1 ∧
    (newBreaker 2 1000 1).threshold = 2 := by
  decide

/-- C2 (amended): starting from any breaker in the Closed state, a
sequence of RegisterSuccess/RegisterFailure calls leaves the breaker Open
exactly when the sequence contains at least one failure and the starting
failure count plus the number of failures in the sequence (consecutive or
not — a success while Closed does not reset the count) reaches the
threshold. -/
theorem breaker_closed_to_open_iff (cb : Breaker) (es : List BreakerEvent)
    (hc : cb.state = .closed) :
    (breakerRun cb es).state = .opened ↔
      1 ≤ countFailures es ∧ cb.threshold ≤ cb.failures + countFailures es := by
  induction es generalizing cb with
  | nil =>
    simp only [breakerRun, countFailures, hc]
    constructor
    · intro h; simp at h
    · intro h; omega
  | cons e rest ih =>
    cases e with
    | success =>
      have hstep : breakerStep cb .success = cb := by
        simp [breakerStep, registerSuccess, hc]
      rw [breakerRun, hstep, ih cb hc]
      simp only [countFailures]
    | failure t =>
      by_cases hth : cb.threshold ≤ cb.failures + 1
      · have hstep : (breakerStep cb (.failure t)).state = .opened := by
          simp [breakerStep, registerFailure, hc, hth]
        rw [breakerRun]
        constructor
        · intro _
          simp only [countFailures]
          have h1 : 0 ≤ countFailures rest := by
            clear * -
            induction rest with
            | nil => simp [countFailures]
            | cons e r ihr => cases e <;> simp [countFailures] <;> omega
          omega
        · intro _
          exact breakerRun_opened_absorbing rest _ hstep
      · have hstep : breakerStep cb (.failure t) =
            { cb with failures := cb.failures + 1, lastFailure := t } := by
          simp [breakerStep, registerFailure, hc, hth]
        rw [breakerRun, hstep, ih _ (by simp [hc])]
        simp only [countFailures]
        constructor
        · intro ⟨h1, h2⟩; constructor <;> omega
        · intro ⟨h1, h2⟩
          constructor
          · by_contra hlt
            push_neg at hlt
            have : countFailures rest ≤ 0 := by omega
            omega
          · omega

/-- Witness for breaker_closed_to_open_iff: a fresh breaker with
threshold 3 opens after the non-consecutive trace F, S, F, F. -/
theorem breaker_closed_to_open_iff_witness :
    (breakerRun (newBreaker 3 100 2)
      [.failure 1, .success, .failure 2, .failure 3]).state = .opened := by
  exact (breaker_closed_to_open_iff (newBreaker 3 100 2)
    [.failure 1, .success, .failure 2, .failure 3] rfl).mpr (by decide)

/-- C4: the §8 breaker scenario with threshold=3, timeout=100ms (in ns),
maxRequests=2.  Three consecutive failures from Closed open the breaker;
AllowRequest before the timeout is denied and Execute returns the
CircuitOpen error for every handler without registering any outcome; once
100ms have elapsed since the last failure AllowRequest moves the breaker
to HalfOpen and admits trial calls; two consecutive successes in HalfOpen
close it with failures = successes = 0; a single failure in HalfOpen
reopens it immediately. -/
theorem breaker_scenario_spec :
    (breakerRun (newBreaker 3 100000000 2) [.failure 10, .failure 20]).state
      = .closed ∧
    (breakerRun (newBreaker 3 100000000 2) [.failure 10, .failure 20, .failure 30]).state
      = .opened ∧
    (let b3 := breakerRun (newBreaker 3 100000000 2) [.failure 10, .failure 20, .failure 30]
     (allowRequest b3 40).1 = false ∧ (allowRequest b3 40).2 = b3 ∧
     (∀ (handler : Option Unit × Option Err),
        execute b3 40 handler = ((none, some circuitOpenErr), b3)) ∧
     (let res := allowRequest b3 (30 + 100000000)
      res.1 = true ∧ res.2.state = .halfOpen ∧ res.2.successes = 0 ∧
      (let b4 := res.2
       let b5 := registerSuccess b4
       b5.state = .halfOpen ∧ b5.successes = 1 ∧
       (allowRequest b5 (40 + 100000000)).1 = true ∧
       (let b6 := registerSuccess b5
        b6.state = .closed ∧ b6.failures = 0 ∧ b6.successes = 0) ∧
       (let b4f := registerFailure b4 (35 + 100000000)
        b4f.state = .opened ∧ b4f.successes = 0)))) := by
  refine ⟨by decide, by decide, by decide, by decide, fun handler => rfl, ?_⟩
  decide

/-! ## Retry middleware loop (src/middleware/retry/retry.go, Retry) -/

/-- Outcome of the retry wrapper: the returned (resp, err) pair plus the
number of times the wrapped handler was invoked (a ghost observation of
the loop; the source does not store it). -/
structure RetryResult (Val : Type) where
  resp : Option Val
  err : Option Err
  invocations : Nat
  deriving DecidableEq, Repr

/-- The delay update before a wait: when backoff is on and this is not
the first retry, multiply the delay by 1.5 and cap it at maxDelay. -/
def nextDelay (backoff : Bool) (attempt : Nat) (delay maxDelay : ℚ) : ℚ :=
  if backoff ∧ 0 < attempt then
    let d := delay * (3 / 2)
    if maxDelay < d then maxDelay else d
  else delay

/-- The retry loop of Retry with `remaining = attempts - attempt`
iterations left.  Each iteration invokes the handler (successive
invocations are modelled as a trace indexed by the attempt number), then
breaks when the predicate refuses to retry, breaks on the last attempt,
and otherwise waits — returning (nil, ctx.Err()) when the context is
canceled during the wait — before the next iteration.  Exiting with
remaining = 0 (only possible when attempts ≤ 0) returns the zero-valued
(resp, err). -/
def retryAux {Val : Type} (retryIf : Option Val → Option Err → Bool)
    (handler : Nat → Option Val × Option Err) (canceled : Nat → Bool)
    (backoff : Bool) (maxDelay : ℚ) :
    (remaining : Nat) → (attempt : Nat) → (delay : ℚ) → RetryResult Val
  | 0, _, _ => ⟨none, none, 0⟩
  | r + 1, attempt, delay =>
    let out := handler attempt
    if !(retryIf out.1 out.2) then ⟨out.1, out.2, 1⟩
    else if r = 0 then ⟨out.1, out.2, 1⟩
    else if canceled attempt then ⟨none, some ctxCanceledErr, 1⟩
    else
      let rest := retryAux retryIf handler canceled backoff maxDelay r (attempt + 1)
        (nextDelay backoff attempt delay maxDelay)
      ⟨rest.resp, rest.err, rest.invocations + 1⟩

/-- The handler produced by Retry: run the loop from attempt 0 with the
configured base delay. -/
def retryGo {Val : Type} (attempts : Nat) (baseDelay maxDelay : ℚ) (backoff : Bool)
    (retryIf : Option Val → Option Err → Bool)
    (handler : Nat → Option Val × Option Err) (canceled : Nat → Bool) :
    RetryResult Val :=
  retryAux retryIf handler canceled backoff maxDelay attempts 0 baseDelay

theorem retryAux_invocations_le {Val : Type}
    (retryIf : Option Val → Option Err → Bool)
    (handler : Nat → Option Val × Option Err) (canceled : Nat → Bool)
    (backoff : Bool) (maxDelay : ℚ) :
    ∀ (r attempt : Nat) (delay : ℚ),
      (retryAux retryIf handler canceled backoff maxDelay r attempt delay).invocations ≤ r := by
  intro r
  induction r with
  | zero => intro attempt delay; simp [retryAux]
  | succ n ih =>
    intro attempt delay
    simp only [retryAux]
    by_cases hr : retryIf (handler attempt).1 (handler attempt).2
    · by_cases hn : n = 0
      · simp [hr, hn]
      · by_cases hcanc : canceled attempt
        · simp [hr, hn, hcanc]
        · have := ih (attempt + 1) (nextDelay backoff attempt delay maxDelay)
          simp only [hr, hn, hcanc]
          simp
          omega
    · simp [hr]

theorem retryAux_all_retry {Val : Type}
    (retryIf : Option Val → Option Err → Bool)
    (handler : Nat → Option Val × Option Err) (canceled : Nat → Bool)
    (backoff : Bool) (maxDelay : ℚ)
    (hretry : ∀ o e, retryIf o e = true) (hcancel : ∀ k, canceled k = false) :
    ∀ (r attempt : Nat) (delay : ℚ), 1 ≤ r →
      retryAux retryIf handler canceled backoff maxDelay r attempt delay =
        ⟨(handler (attempt + r - 1)).1, (handler (attempt + r - 1)).2, r⟩ := by
  intro r
  induction r with
  | zero => intro attempt delay h; omega
  | succ n ih =>
    intro attempt delay _
    by_cases hn : n = 0
    · subst hn
      simp [retryAux, hretry]
    · have hrec := ih (attempt + 1) (nextDelay backoff attempt delay maxDelay) (by omega)
      have harg : attempt + 1 + n - 1 = attempt + (n + 1) - 1 := by omega
      rw [harg] at hrec
      simp [retryAux, hretry, hn, hcancel, hrec]

theorem retryAux_stops {Val : Type}
    (retryIf : Option Val → Option Err → Bool)
    (handler : Nat → Option Val × Option Err) (canceled : Nat → Bool)
    (backoff : Bool) (maxDelay : ℚ) :
    ∀ (k r attempt : Nat) (delay : ℚ), k < r →
      (∀ j, j < k → retryIf (handler (attempt + j)).1 (handler (attempt + j)).2 = true ∧
        canceled (attempt + j) = false) →
      retryIf (handler (attempt + k)).1 (handler (attempt + k)).2 = false →
      retryAux retryIf handler canceled backoff maxDelay r attempt delay =
        ⟨(handler (attempt + k)).1, (handler (attempt + k)).2, k + 1⟩ := by
  intro k
  induction k with
  | zero =>
    intro r attempt delay hk _ hstop
    match r, hk with
    | n + 1, _ =>
      simp only [Nat.add_zero] at hstop
      simp [retryAux, hstop]
  | succ k ih =>
    intro r attempt delay hk hbefore hstop
    match r, hk with
    | n + 1, _ =>
      have h0 := hbefore 0 (by omega)
      rw [Nat.add_zero] at h0
      have hn : n ≠ 0 := by omega
      have hrec := ih n (attempt + 1) (nextDelay backoff attempt delay maxDelay)
        (by omega)
        (fun j hj => by
          have := hbefore (j + 1) (by omega)
          rwa [show attempt + (j + 1) = attempt + 1 + j by omega] at this)
        (by rwa [show attempt + 1 + k = attempt + (k + 1) by omega])
      rw [show attempt + 1 + k = attempt + (k + 1) by omega] at hrec
      simp [retryAux, h0.1, h0.2, hn, hrec]

/-- C6: for the Retry middleware with `attempts = n ≥ 1`: (a) the wrapped
handler is invoked at most n times; (b) when the predicate approves
retrying every outcome and the context is never canceled, the handler is
invoked exactly n times and the n-th attempt's (resp, err) is returned
as-is; (c) when the predicate rejects the outcome of attempt k (the first
k outcomes having been approved without cancellation), that outcome is
returned immediately after exactly k+1 invocations. -/
theorem retry_attempts_spec {Val : Type} (attempts : Nat) (h1 : 1 ≤ attempts)
    (baseDelay maxDelay : ℚ) (backoff : Bool)
    (retryIf : Option Val → Option Err → Bool)
    (handler : Nat → Option Val × Option Err) (canceled : Nat → Bool) :
    (retryGo attempts baseDelay maxDelay backoff retryIf handler canceled).invocations
        ≤ attempts ∧
    ((∀ o e, retryIf o e = true) → (∀ k, canceled k = false) →
      retryGo attempts baseDelay maxDelay backoff retryIf handler canceled =
        ⟨(handler (attempts - 1)).1, (handler (attempts - 1)).2, attempts⟩) ∧
    (∀ k, k < attempts →
      (∀ j, j < k → retryIf (handler j).1 (handler j).2 = true ∧ canceled j = false) →
      retryIf (handler k).1 (handler k).2 = false →
      retryGo attempts baseDelay maxDelay backoff retryIf handler canceled =
        ⟨(handler k).1, (handler k).2, k + 1⟩) := by
  refine ⟨retryAux_invocations_le retryIf handler canceled backoff maxDelay attempts 0 baseDelay,
          ?_, ?_⟩
  · intro hretry hcancel
    have := retryAux_all_retry retryIf handler canceled backoff maxDelay hretry hcancel
      attempts 0 baseDelay h1
    rwa [Nat.zero_add] at this
  · intro k hk hbefore hstop
    have := retryAux_stops retryIf handler canceled backoff maxDelay k attempts 0 baseDelay hk
      (fun j hj => by rw [Nat.zero_add]; exact hbefore j hj)
      (by rwa [Nat.zero_add])
    rwa [Nat.zero_add] at this

/-- Witness for retry_attempts_spec: with attempts = 3, an always-failing
handler under an always-retry predicate is invoked exactly 3 times and
its last error is returned. -/
theorem retry_attempts_spec_witness :
    @retryGo Unit 3 1 2 true (fun _ _ => true)
      (fun _ => (none, some (.goError "boom"))) (fun _ => false) =
      ⟨none, some (.goError "boom"), 3⟩ := by
  exact (retry_attempts_spec 3 (by decide) 1 2 true _ _ _).2.1
    (fun _ _ => rfl) (fun _ => rfl)

/-! ## Rate limiters (package limiter, second part of
src/middleware/tracing/tracing.go): TokenBucketLimiter,
SlidingWindowLimiter, GCRALimiter, all implementing
Allow(key) -> (allowed, info). -/

/-- Association-list model of a Go map: lookup. -/
def mapGet {α : Type} : List (String × α) → String → Option α
  | [], _ => none
  | (k', v) :: rest, k => if k' = k then some v else mapGet rest k

/-- Association-list model of a Go map: insert or replace. -/
def mapSet {α : Type} : List (String × α) → String → α → List (String × α)
  | [], k, v => [(k, v)]
  | (k', v') :: rest, k, v =>
    if k' = k then (k, v) :: rest else (k', v') :: mapSet rest k v

/-- Go conversion int(x) of a float value: truncation toward zero. -/
def truncQ (q : ℚ) : Int := if q < 0 then -Int.floor (-q) else Int.floor q

/-- Go integer division (also what time.Duration.Milliseconds performs on
nanoseconds): truncation toward zero. -/
def goDiv (a b : Int) : Int := Int.tdiv a b

theorem truncQ_of_nonneg {q : ℚ} (h : 0 ≤ q) : truncQ q = Int.floor q := by
  rw [truncQ, if_neg (not_lt.mpr h)]

/-- Token bucket entry: current tokens and the time of the last update
(nanoseconds). -/
structure TBBucket where
  tokens : ℚ
  lastUpdate : Int
  deriving DecidableEq, Repr

/-- TokenBucketLimiter: refill rate (tokens per second), capacity, the
per-key bucket map, the cleanup interval and the last cleanup time. -/
structure TokenBucketLimiter where
  rate : ℚ
  capacity : ℚ
  buckets : List (String × TBBucket)
  cleanupInt : Int
  lastClean : Int
  deriving DecidableEq, Repr

/-- The opportunistic cleanup of TokenBucketLimiter: delete every bucket
whose lastUpdate is before now - 30 minutes. -/
def tbCleanup (buckets : List (String × TBBucket)) (now : Int) :
    List (String × TBBucket) :=
  buckets.filter (fun kv => !(kv.2.lastUpdate < now - 1800000000000))

/-- TokenBucketLimiter.Allow up to the admission decision: run the
periodic cleanup when due, look up or lazily create the key's bucket (a
fresh bucket holds capacity tokens), and refill it by elapsed seconds
times rate, capped at capacity.  Returns the refilled bucket (stamped
with now) together with the post-cleanup map and lastClean. -/
def tbResolve (l : TokenBucketLimiter) (key : String) (now : Int) :
    TBBucket × List (String × TBBucket) × Int :=
  let cleaned :=
    if l.cleanupInt < now - l.lastClean then (tbCleanup l.buckets now, now)
    else (l.buckets, l.lastClean)
  let b :=
    match mapGet cleaned.1 key with
    | some b => b
    | none => ⟨l.capacity, now⟩
  let elapsedSec : ℚ := ((now - b.lastUpdate : Int) : ℚ) / 1000000000
  let tokens := min l.capacity (b.tokens + elapsedSec * l.rate)
  (⟨tokens, now⟩, cleaned.1, cleaned.2)

/-- TokenBucketLimiter.Allow: admit and consume one token when the
refilled bucket holds at least one token, reporting the remaining whole
tokens; otherwise deny, reporting int((1 - tokens) / rate * 1000), the
wait in milliseconds. -/
def tbAllow (l : TokenBucketLimiter) (key : String) (now : Int) :
    Bool × Int × TokenBucketLimiter :=
  let r := tbResolve l key now
  let b := r.1
  if 1 ≤ b.tokens then
    (true, truncQ (b.tokens - 1),
      { l with buckets := mapSet r.2.1 key ⟨b.tokens - 1, now⟩, lastClean := r.2.2 })
  else
    (false, truncQ ((1 - b.tokens) / l.rate * 1000),
      { l with buckets := mapSet r.2.1 key b, lastClean := r.2.2 })

/-- Modelled from the spec: the Token Bucket denial wait,
"(1 - tokens) / rate", converted to milliseconds. -/
def specTBWaitMs (rate tokens : ℚ) : ℚ := (1 - tokens) / rate * 1000

/-- Sliding window entry: cached count, the ordered timestamp list
(nanoseconds), and the time of the last update. -/
structure TimeWindow where
  count : Int
  timestamps : List Int
  lastUpdate : Int
  deriving DecidableEq, Repr

/-- SlidingWindowLimiter: allowed requests per window, window size in
nanoseconds, the per-key window map, the cleanup interval and the last
cleanup time. -/
structure SlidingWindowLimiter where
  rate : Int
  window : Int
  windows : List (String × TimeWindow)
  cleanupInt : Int
  lastClean : Int
  deriving DecidableEq, Repr

/-- The opportunistic cleanup of SlidingWindowLimiter. -/
def swCleanup (ws : List (String × TimeWindow)) (now : Int) :
    List (String × TimeWindow) :=
  ws.filter (fun kv => !(kv.2.lastUpdate < now - 1800000000000))

/-- The timestamp pruning of SlidingWindowLimiter.Allow, exactly as in
the source: validIdx is the index of the first timestamp ≥ cutoff (and
stays 0 when every timestamp is expired — such a fully-expired list is
not pruned), and the prefix before validIdx is dropped only when
validIdx > 0. -/
def swPrune (cutoff : Int) (tss : List Int) : List Int :=
  let validIdx :=
    match tss.findIdx? (fun ts => cutoff ≤ ts) with
    | some i => i
    | none => 0
  if 0 < validIdx then tss.drop validIdx else tss

/-- SlidingWindowLimiter.Allow up to the admission decision: run the
periodic cleanup when due, look up or lazily create the key's window,
and prune its timestamps against cutoff = now - window.  Returns the
pruned timestamp list with the post-cleanup map and lastClean. -/
def swResolve (l : SlidingWindowLimiter) (key : String) (now : Int) :
    List Int × List (String × TimeWindow) × Int :=
  let cleaned :=
    if l.cleanupInt < now - l.lastClean then (swCleanup l.windows now, now)
    else (l.windows, l.lastClean)
  let w :=
    match mapGet cleaned.1 key with
    | some w => w
    | none => ⟨0, [], now⟩
  (swPrune (now - l.window) w.timestamps, cleaned.1, cleaned.2)

/-- SlidingWindowLimiter.Allow: admit when the in-window count is below
rate, appending now and reporting rate - count as the remaining quota;
otherwise deny, reporting (timestamps[0] - cutoff) in milliseconds — the
time until the oldest timestamp exits the window.  The source indexes
timestamps[0] on the denial path; headD models it and the contract
theorem shows the list is non-empty there whenever rate ≥ 1. -/
def swAllow (l : SlidingWindowLimiter) (key : String) (now : Int) :
    Bool × Int × SlidingWindowLimiter :=
  let r := swResolve l key now
  let tss := r.1
  let count : Int := tss.length
  if count < l.rate then
    (true, l.rate - (count + 1),
      { l with windows := mapSet r.2.1 key ⟨count + 1, tss ++ [now], now⟩,
               lastClean := r.2.2 })
  else
    (false, goDiv (tss.headD 0 - (now - l.window)) 1000000,
      { l with windows := mapSet r.2.1 key ⟨count, tss, now⟩, lastClean := r.2.2 })

/-- Modelled from the spec: the Sliding Window denial wait, the "time
until the oldest timestamp exits the window", (oldest + window) - now in
nanoseconds. -/
def specSWWaitNs (oldest window now : Int) : Int := oldest + window - now

/-- GCRA entry: the theoretical arrival time tau and the time of the last
update (nanoseconds). -/
structure GcraData where
  tau : Int
  lastUpdate : Int
  deriving DecidableEq, Repr

/-- GCRALimiter: target rate (requests per second), burst allowance, the
per-key data map, the cleanup interval and the last cleanup time. -/
structure GCRALimiter where
  rate : ℚ
  burst : Int
  limiters : List (String × GcraData)
  cleanupInt : Int
  lastClean : Int
  deriving DecidableEq, Repr

/-- The opportunistic cleanup of GCRALimiter. -/
def gcraCleanup (ds : List (String × GcraData)) (now : Int) :
    List (String × GcraData) :=
  ds.filter (fun kv => !(kv.2.lastUpdate < now - 1800000000000))

/-- The emission interval of GCRALimiter.Allow:
time.Duration(float64(time.Second) / rate), the float value 1e9/rate
truncated toward zero to whole nanoseconds. -/
def gcraIncrement (rate : ℚ) : Int := truncQ (1000000000 / rate)

/-- GCRALimiter.Allow up to the admission decision: run the periodic
cleanup when due and look up or lazily create the key's data (a fresh
entry puts tau a full burst of increments in the past).  Returns the data
with the post-cleanup map and lastClean. -/
def gcraResolve (l : GCRALimiter) (key : String) (now : Int) :
    GcraData × List (String × GcraData) × Int :=
  let cleaned :=
    if l.cleanupInt < now - l.lastClean then (gcraCleanup l.limiters now, now)
    else (l.limiters, l.lastClean)
  let data :=
    match mapGet cleaned.1 key with
    | some d => d
    | none => ⟨now - l.burst * gcraIncrement l.rate, now⟩
  (data, cleaned.1, cleaned.2)

/-- The updated theoretical arrival time of GCRALimiter.Allow on the
admission path: tau = max(tau + increment, now). -/
def gcraTauAfter (l : GCRALimiter) (key : String) (now : Int) : Int :=
  max ((gcraResolve l key now).1.tau + gcraIncrement l.rate) now

/-- The remaining quota reported by GCRALimiter.Allow on the admission
path: int(now.Sub(tau).Milliseconds() / increment.Milliseconds()) with
tau already updated, clamped into [0, burst].  The inner division is an
int64 division whose divisor is increment.Milliseconds(). -/
def gcraRemaining (l : GCRALimiter) (key : String) (now : Int) : Int :=
  max 0 (min l.burst
    (goDiv (goDiv (now - gcraTauAfter l key now) 1000000)
      (goDiv (gcraIncrement l.rate) 1000000)))

/-- GCRALimiter.Allow: deny with wait (tau - now) in milliseconds while
tau is in the future; otherwise set tau = max(tau + increment, now) and
admit, reporting the clamped remaining quota.  The remaining-quota
computation divides by increment.Milliseconds(); when the increment is
under one millisecond (rate > 1000 requests/sec) that divisor is 0 and
the Go int64 division panics with an integer divide by zero, modelled as
an error result — the panic unwinds before Allow returns anything (the
in-place mutation of tau/lastUpdate that Go performed before the panic is
unobservable through a return value). -/
def gcraAllow (l : GCRALimiter) (key : String) (now : Int) :
    Except Err (Bool × Int × GCRALimiter) :=
  let r := gcraResolve l key now
  let data := r.1
  if now < data.tau then
    .ok (false, goDiv (data.tau - now) 1000000,
      { l with limiters := mapSet r.2.1 key data, lastClean := r.2.2 })
  else if goDiv (gcraIncrement l.rate) 1000000 = 0 then
    .error (.panicked "integer divide by zero")
  else
    .ok (true, gcraRemaining l key now,
      { l with limiters := mapSet r.2.1 key ⟨gcraTauAfter l key now, now⟩,
               lastClean := r.2.2 })

/-- Modelled from the spec: the GCRA denial wait, "tau - now"
(nanoseconds). -/
def specGcraWaitNs (tau now : Int) : Int := tau - now

/-- C3 counterexample input: a GCRA limiter with rate 2000 requests/sec
has increment 0.5ms, so increment.Milliseconds() = 0 and the very first
admitted call for any key dies in the remaining-quota division with an
integer divide by zero instead of returning an (allowed, info) pair. -/
theorem gcraAllow_panics_at_high_rate :
    gcraAllow ⟨2000, 5, [], 600000000000, 0⟩ "k" 0 =
      .error (.panicked "integer divide by zero") := by
  have hinc : gcraIncrement 2000 = 500000 := by
    norm_num [gcraIncrement, truncQ]
  have hres : (gcraResolve ⟨2000, 5, [], 600000000000, 0⟩ "k" 0).1 = ⟨-2500000, 0⟩ := by
    norm_num [gcraResolve, mapGet, gcraCleanup, gcraIncrement, truncQ]
  have hdz : goDiv 500000 1000000 = 0 := by decide
  simp [gcraAllow, hres, hinc, hdz]

/-- C3 (amended): the three limiter algorithms share the
Allow(key) -> (allowed, info) contract, with a proviso on GCRA's
admission path.  For every key and instant, relative to the refilled /
pruned / resolved per-key entry: Token Bucket admits exactly when the
refilled bucket holds ≥ 1 token, reporting the remaining whole tokens
(a non-negative quota) when admitting and the millisecond truncation of
the spec's (1 - tokens)/rate wait when denying; Sliding Window admits
exactly when the in-window count is below rate, reporting the remaining
quota rate - (count + 1) when admitting, and when denying its timestamp
list is non-empty (so the source's timestamps[0] indexing is safe) and it
reports the millisecond truncation of the spec's time-until-the-oldest-
timestamp-exits wait; GCRA denies exactly when now < tau, reporting the
millisecond truncation of the spec's tau - now wait, and on admission
(tau ≤ now) it panics with an integer divide by zero whenever
increment.Milliseconds() = 0 (every rate above 1000 requests/sec), while
with a whole-millisecond increment it admits and reports a clamped
remaining quota in [0, max(burst, 0)]. -/
theorem limiter_contract_spec (key : String) (now : Int)
    (tb : TokenBucketLimiter) (sw : SlidingWindowLimiter) (g : GCRALimiter) :
    (0 < tb.rate →
      ((tbAllow tb key now).1 = decide (1 ≤ (tbResolve tb key now).1.tokens)) ∧
      (1 ≤ (tbResolve tb key now).1.tokens →
        (tbAllow tb key now).2.1 = Int.floor ((tbResolve tb key now).1.tokens - 1) ∧
        0 ≤ (tbAllow tb key now).2.1) ∧
      ((tbResolve tb key now).1.tokens < 1 →
        (tbAllow tb key now).2.1 =
          truncQ (specTBWaitMs tb.rate (tbResolve tb key now).1.tokens))) ∧
    (1 ≤ sw.rate →
      ((swAllow sw key now).1 =
        decide (((swResolve sw key now).1.length : Int) < sw.rate)) ∧
      (((swResolve sw key now).1.length : Int) < sw.rate →
        (swAllow sw key now).2.1 =
          sw.rate - (((swResolve sw key now).1.length : Int) + 1)) ∧
      (sw.rate ≤ ((swResolve sw key now).1.length : Int) →
        (swResolve sw key now).1 ≠ [] ∧
        (swAllow sw key now).2.1 =
          goDiv (specSWWaitNs ((swResolve sw key now).1.headD 0) sw.window now)
            1000000)) ∧
    (0 < g.rate →
      (now < (gcraResolve g key now).1.tau →
        gcraAllow g key now = .ok (false,
          goDiv (specGcraWaitNs (gcraResolve g key now).1.tau now) 1000000,
          { g with limiters := mapSet (gcraResolve g key now).2.1 key
                     (gcraResolve g key now).1,
                   lastClean := (gcraResolve g key now).2.2 })) ∧
      ((gcraResolve g key now).1.tau ≤ now →
        goDiv (gcraIncrement g.rate) 1000000 = 0 →
        gcraAllow g key now = .error (.panicked "integer divide by zero")) ∧
      ((gcraResolve g key now).1.tau ≤ now →
        goDiv (gcraIncrement g.rate) 1000000 ≠ 0 →
        gcraAllow g key now = .ok (true, gcraRemaining g key now,
          { g with limiters := mapSet (gcraResolve g key now).2.1 key
                     ⟨gcraTauAfter g key now, now⟩,
                   lastClean := (gcraResolve g key now).2.2 }) ∧
        0 ≤ gcraRemaining g key now ∧
        gcraRemaining g key now ≤ max g.burst 0)) := by
  refine ⟨fun _ => ⟨?_, ?_, ?_⟩, fun hsw => ⟨?_, ?_, ?_⟩, fun _ => ⟨?_, ?_, ?_⟩⟩
  · by_cases h : 1 ≤ (tbResolve tb key now).1.tokens <;> simp [tbAllow, h]
  · intro h
    have h0 : (0 : ℚ) ≤ (tbResolve tb key now).1.tokens - 1 := by linarith
    constructor
    · simp [tbAllow, h, truncQ_of_nonneg h0]
    · simp only [tbAllow, if_pos h]
      rw [truncQ_of_nonneg h0]
      exact Int.le_floor.mpr (by push_cast; linarith)
  · intro h
    simp [tbAllow, not_le.mpr h, specTBWaitMs]
  · by_cases h : ((swResolve sw key now).1.length : Int) < sw.rate <;> simp [swAllow, h]
  · intro h
    simp [swAllow, h]
  · intro h
    have hne : (swResolve sw key now).1 ≠ [] := by
      intro hnil
      rw [hnil] at h
      simp at h
      omega
    refine ⟨hne, ?_⟩
    have harg : ∀ x : Int, x - (now - sw.window) = specSWWaitNs x sw.window now := by
      intro x; rw [specSWWaitNs]; ring
    simp [swAllow, not_lt.mpr h, harg]
  · intro h
    simp [gcraAllow, h, specGcraWaitNs]
  · intro h hdz
    simp [gcraAllow, not_lt.mpr h, hdz]
  · intro h hdz
    refine ⟨by simp [gcraAllow, not_lt.mpr h, hdz], le_max_left 0 _, ?_⟩
    have hmin : min g.burst
        (goDiv (goDiv (now - gcraTauAfter g key now) 1000000)
          (goDiv (gcraIncrement g.rate) 1000000)) ≤ g.burst := min_le_left _ _
    rw [gcraRemaining]
    omega

/-- Witness for limiter_contract_spec: fresh limiters (token bucket
rate 10 capacity 5; sliding window rate 2 window 10s; GCRA rate 10
burst 5) at time 0 under key k. -/
theorem limiter_contract_spec_witness :
    (tbAllow ⟨10, 5, [], 600000000000, 0⟩ "k" 0).1 = true ∧
    (tbAllow ⟨10, 5, [], 600000000000, 0⟩ "k" 0).2.1 = 4 ∧
    (swAllow ⟨2, 10000000000, [], 600000000000, 0⟩ "k" 0).1 = true ∧
    (∃ l', gcraAllow ⟨10, 5, [], 600000000000, 0⟩ "k" 0 =
      .ok (true, gcraRemaining ⟨10, 5, [], 600000000000, 0⟩ "k" 0, l')) ∧
    0 ≤ gcraRemaining ⟨10, 5, [], 600000000000, 0⟩ "k" 0 := by
  have h := limiter_contract_spec "k" 0 ⟨10, 5, [], 600000000000, 0⟩
    ⟨2, 10000000000, [], 600000000000, 0⟩ ⟨10, 5, [], 600000000000, 0⟩
  have htb : (tbResolve ⟨10, 5, [], 600000000000, 0⟩ "k" 0).1 = ⟨5, 0⟩ := by
    norm_num [tbResolve, mapGet, tbCleanup]
  have hswr : (swResolve ⟨2, 10000000000, [], 600000000000, 0⟩ "k" 0).1 = [] := by
    norm_num [swResolve, mapGet, swCleanup, swPrune, List.findIdx?]
  have hg : (gcraResolve ⟨10, 5, [], 600000000000, 0⟩ "k" 0).1 = ⟨-500000000, 0⟩ := by
    norm_num [gcraResolve, mapGet, gcraCleanup, gcraIncrement, truncQ]
  have hinc : gcraIncrement 10 = 100000000 := by
    norm_num [gcraIncrement, truncQ]
  have hdz : goDiv (gcraIncrement (10 : ℚ)) 1000000 ≠ 0 := by
    rw [hinc]; decide
  have htau : (gcraResolve ⟨10, 5, [], 600000000000, 0⟩ "k" 0).1.tau ≤ 0 := by
    rw [hg]; norm_num
  obtain ⟨heq, h0, -⟩ := (h.2.2 (by norm_num)).2.2 htau hdz
  refine ⟨?_, ?_, ?_, ⟨_, heq⟩, h0⟩
  · rw [(h.1 (by norm_num)).1, htb]; norm_num
  · rw [((h.1 (by norm_num)).2.1 (by rw [htb]; norm_num)).1, htb]; norm_num
  · rw [(h.2.1 (by norm_num)).1, hswr]; norm_num

end Phantasm
